import Mathlib

/-!
Shallow embedding of the obvious3 streaming filter pipeline
(src/main.rs and src/find.rs of SeanTater/obvious3).

The program lists object-store metadata records (or re-ingests them from
stdin as NDJSON), filters them by path regex, basename regex, size and
modification-time bounds, and emits survivors as JSON lines preceded by a
one-line `Preamble` header, so that invocations can be chained by pipes.

Modelling conventions:
* JSON is modelled at the AST level (`Json` below); the string layer of
  serde_json is modelled by `renderJson` for the output direction. A stdin
  line is `Option Json`, `none` standing for a line that is not valid JSON.
* `DateTime<Utc>` (chrono) is modelled by its UTC calendar components
  (`DT`); chrono's serde representation (an RFC3339 string) is modelled by
  `dtFormat`/`dtParseList`. Chronological order on valid component tuples
  is lexicographic (`dtLe`).
* External collaborators (the `url` crate, `regex` crate, the filesystem
  and the backend listing) are parameters of the model (`Env`).
* `object_store::path::Path` is kept in its raw (encoded) string form;
  `From<String> for Path` is modelled by `pathFrom`, which drops empty
  segments and percent-encodes special characters per the object_store
  documentation, and `Path::filename` by `pathFilename`.
* The concurrent pipeline (`try_for_each_concurrent` + the mpsc-fed writer
  task) is modelled by the deterministic schedule in which the writer task
  keeps up with the producers: each forwarded record is sent and consumed
  immediately.  The output destination accepts `cap` record lines and then
  behaves as a closed pipe (`cap = none`: never closes), matching the
  broken-pipe scenario of the spec.
-/

/-- A JSON scalar as used by the wire format.  `other` stands for any JSON
value that is neither null, a string, nor an unsigned integer (such values
can appear on malformed input lines and never decode to a field). -/
inductive JVal where
  | null : JVal
  | str (s : String) : JVal
  | num (n : Nat) : JVal
  | other : JVal
  deriving DecidableEq

/-- A JSON line of the wire protocol: one object with scalar fields, or a
bare scalar (a well-formed but non-object line). -/
inductive Json where
  | obj (fields : List (String × JVal)) : Json
  | lit (v : JVal) : Json
  deriving DecidableEq

/-- Field lookup as serde's struct visitor sees it (first occurrence). -/
def lookupField (fs : List (String × JVal)) (key : String) : Option JVal :=
  match fs with
  | [] => none
  | f :: rest => if f.1 = key then some f.2 else lookupField rest key

/-- UTC calendar components of a `chrono::DateTime<Utc>` value. -/
structure DT where
  year : Nat
  month : Nat
  day : Nat
  hour : Nat
  minute : Nat
  second : Nat
  nanos : Nat
  deriving DecidableEq

/-- The component ranges of a real `DateTime<Utc>` within the RFC3339
format modelled here. -/
def DTValid (t : DT) : Prop :=
  t.year < 10000 ∧ 1 ≤ t.month ∧ t.month ≤ 12 ∧ 1 ≤ t.day ∧ t.day ≤ 31 ∧
    t.hour < 24 ∧ t.minute < 60 ∧ t.second < 60 ∧ t.nanos < 1000000000

instance (t : DT) : Decidable (DTValid t) := by
  unfold DTValid; infer_instance

/-- Chronological order on datetimes: lexicographic on the components
(this agrees with chrono's `Ord` on valid component tuples). -/
def dtLe (a b : DT) : Bool :=
  if a.year ≠ b.year then a.year < b.year
  else if a.month ≠ b.month then a.month < b.month
  else if a.day ≠ b.day then a.day < b.day
  else if a.hour ≠ b.hour then a.hour < b.hour
  else if a.minute ≠ b.minute then a.minute < b.minute
  else if a.second ≠ b.second then a.second < b.second
  else a.nanos ≤ b.nanos

theorem dtLe_refl (t : DT) : dtLe t t = true := by
  simp [dtLe]

/-- Decimal digit character. -/
def digitChar (d : Nat) : Char := Char.ofNat (48 + d % 10)

/-- Value of a decimal digit character. -/
def digitVal (c : Char) : Nat := c.toNat - 48

/-- Is this character a decimal digit. -/
def isDigitChar (c : Char) : Bool := 48 ≤ c.toNat && c.toNat ≤ 57

/-- Fixed-width zero-padded decimal printing (most significant first). -/
def padNum : Nat → Nat → List Char
  | 0, _ => []
  | w + 1, n => digitChar (n / 10 ^ w) :: padNum w (n % 10 ^ w)

/-- Read exactly `w` decimal digits. -/
def readFixed : Nat → List Char → Option (Nat × List Char)
  | 0, cs => some (0, cs)
  | _ + 1, [] => none
  | w + 1, c :: cs =>
    if isDigitChar c then
      (readFixed w cs).map (fun p => (digitVal c * 10 ^ w + p.1, p.2))
    else none

theorem digitChar_spec (d : Nat) (h : d < 10) :
    isDigitChar (digitChar d) = true ∧ digitVal (digitChar d) = d := by
  interval_cases d <;> exact ⟨rfl, rfl⟩

theorem readFixed_pad (w n : Nat) (h : n < 10 ^ w) :
    ∀ rest : List Char, readFixed w (padNum w n ++ rest) = some (n, rest) := by
  induction w generalizing n with
  | zero =>
    intro rest
    have hn : n = 0 := by simpa using h
    simp [padNum, readFixed, hn]
  | succ w ih =>
    intro rest
    have hq : n / 10 ^ w < 10 := by
      apply Nat.div_lt_of_lt_mul
      have : 10 ^ (w + 1) = 10 ^ w * 10 := by ring
      omega
    have hr : n % 10 ^ w < 10 ^ w := Nat.mod_lt _ (Nat.pos_pow_of_pos w (by norm_num))
    obtain ⟨hd, hv⟩ := digitChar_spec _ hq
    simp only [padNum, List.cons_append, List.append_eq, readFixed, hd, if_true,
      ih _ hr, Option.map_some', hv]
    rw [Nat.div_add_mod']

/-- Expect one literal character. -/
def expectChar (c : Char) : List Char → Option (List Char)
  | [] => none
  | x :: xs => if x = c then some xs else none

theorem expectChar_cons (c : Char) :
    ∀ rest : List Char, expectChar c (c :: rest) = some rest := by
  intro rest
  simp [expectChar]

/-- RFC3339 rendering of a datetime, as chrono's serde support emits for
`DateTime<Utc>` (modelled with fixed nine-digit subseconds and a `Z`
offset; the exact subsecond width chrono picks does not matter to any
claim). -/
def dtFormat (t : DT) : List Char :=
  padNum 4 t.year ++
    ('-' :: (padNum 2 t.month ++
    ('-' :: (padNum 2 t.day ++
    ('T' :: (padNum 2 t.hour ++
    (':' :: (padNum 2 t.minute ++
    (':' :: (padNum 2 t.second ++
    ('.' :: (padNum 9 t.nanos ++ ['Z']))))))))))))

/-- RFC3339 parsing, inverse of `dtFormat` (the real chrono parser accepts
more shapes; the claims only need that it accepts what is emitted). -/
def dtParseList (cs : List Char) : Option DT :=
  match readFixed 4 cs with
  | none => none
  | some (y, cs) =>
  match expectChar '-' cs with
  | none => none
  | some cs =>
  match readFixed 2 cs with
  | none => none
  | some (mo, cs) =>
  match expectChar '-' cs with
  | none => none
  | some cs =>
  match readFixed 2 cs with
  | none => none
  | some (d, cs) =>
  match expectChar 'T' cs with
  | none => none
  | some cs =>
  match readFixed 2 cs with
  | none => none
  | some (h, cs) =>
  match expectChar ':' cs with
  | none => none
  | some cs =>
  match readFixed 2 cs with
  | none => none
  | some (mi, cs) =>
  match expectChar ':' cs with
  | none => none
  | some cs =>
  match readFixed 2 cs with
  | none => none
  | some (s, cs) =>
  match expectChar '.' cs with
  | none => none
  | some cs =>
  match readFixed 9 cs with
  | none => none
  | some (ns, cs) =>
  match expectChar 'Z' cs with
  | none => none
  | some cs =>
  match cs with
  | [] => some ⟨y, mo, d, h, mi, s, ns⟩
  | _ => none

theorem dtParse_dtFormat (t : DT) (h : DTValid t) :
    dtParseList (dtFormat t) = some t := by
  obtain ⟨h1, h2a, h2, h3a, h3, h4, h5, h6, h7⟩ := h
  have hy : t.year < 10 ^ 4 := by omega
  have hmo : t.month < 10 ^ 2 := by omega
  have hd : t.day < 10 ^ 2 := by omega
  have hh : t.hour < 10 ^ 2 := by omega
  have hmi : t.minute < 10 ^ 2 := by omega
  have hs : t.second < 10 ^ 2 := by omega
  have hns : t.nanos < 10 ^ 9 := by omega
  simp only [dtFormat, dtParseList, readFixed_pad 4 t.year hy, expectChar_cons,
    readFixed_pad 2 t.month hmo, readFixed_pad 2 t.day hd, readFixed_pad 2 t.hour hh,
    readFixed_pad 2 t.minute hmi, readFixed_pad 2 t.second hs,
    readFixed_pad 9 t.nanos hns]

/-- Split a character list on the path delimiter. -/
def splitSeg : List Char → List (List Char)
  | [] => [[]]
  | c :: cs =>
    if c = '/' then [] :: splitSeg cs
    else
      match splitSeg cs with
      | [] => [[c]]
      | s :: ss => (c :: s) :: ss

/-- Join path segments with the delimiter. -/
def joinSeg : List (List Char) → List Char
  | [] => []
  | [s] => s
  | s :: ss => s ++ '/' :: joinSeg ss

/-- Uppercase hexadecimal digit. -/
def hexDigitChar (d : Nat) : Char :=
  if d < 10 then Char.ofNat (48 + d) else Char.ofNat (55 + d % 16)

/-- Characters percent-encoded by `object_store::path::PathPart` (the path
delimiter, control characters, and the characters AWS recommends avoiding
in object keys, per the object_store documentation). -/
def invalidChars : List Char :=
  ['/', '\\', Char.ofNat 123, '^', Char.ofNat 125, '%', Char.ofNat 96, ']',
    '"', '>', '[', '~', '<', '#', '|']

/-- Does `PathPart` percent-encode this character. -/
def invalidChar (c : Char) : Bool :=
  c.toNat < 32 || c.toNat == 127 || invalidChars.contains c

/-- Percent-encoding of one character. -/
def pctEncode (c : Char) : List Char :=
  ['%', hexDigitChar (c.toNat / 16 % 16), hexDigitChar (c.toNat % 16)]

/-- `PathPart::from`: one path segment, sanitised ("." and ".." wholesale,
other segments character by character). -/
def partEncode (part : List Char) : List Char :=
  if part = ['.'] then ['%', '2', 'E']
  else if part = ['.', '.'] then ['%', '2', 'E', '%', '2', 'E']
  else part.flatMap (fun c => if invalidChar c then pctEncode c else [c])

/-- `From<String> for object_store::path::Path`: split on the delimiter,
drop empty segments, sanitise each part. The result is the raw string the
`Path` stores. -/
def pathFromList (cs : List Char) : List Char :=
  joinSeg (((splitSeg cs).filter (fun s => s ≠ [])).map partEncode)

/-- String-level wrapper of `pathFromList`. -/
def pathFrom (s : String) : String := ⟨pathFromList s.data⟩

/-- `Path::filename`: the final segment of the raw path, `none` when the
path is empty. -/
def pathFilename (s : String) : Option String :=
  if s.data.isEmpty then none else some ⟨(splitSeg s.data).getLastD []⟩

/-- The wire/export form of a record (struct `ObjectExport` in
src/main.rs): what crosses the process boundary as one JSON line. -/
structure ObjectExport where
  location : String
  last_modified : DT
  size : Nat
  e_tag : Option String
  version : Option String
  deriving DecidableEq

/-- The backend-native form (`object_store::ObjectMeta`); `location` holds
the raw string of the `Path`. -/
structure ObjectMeta where
  location : String
  last_modified : DT
  size : Nat
  e_tag : Option String
  version : Option String
  deriving DecidableEq

/-- `impl From<ObjectMeta> for ObjectExport`: `location` is
`meta.location.to_string()` (the raw path), other fields copied. -/
def exportOfMeta (m : ObjectMeta) : ObjectExport :=
  ⟨m.location, m.last_modified, m.size, m.e_tag, m.version⟩

/-- `impl From<ObjectExport> for ObjectMeta`: `location` goes through
`ObjectStorePath::from(export.location)`, other fields copied. -/
def metaOfExport (e : ObjectExport) : ObjectMeta :=
  ⟨pathFrom e.location, e.last_modified, e.size, e.e_tag, e.version⟩

/-- Serde serialization of an optional string field. -/
def optStrVal : Option String → JVal
  | none => JVal.null
  | some s => JVal.str s

/-- Serde serialization of `ObjectExport` (derive Serialize): one JSON
object in field declaration order, the timestamp as an RFC3339 string. -/
def encodeExport (e : ObjectExport) : Json :=
  Json.obj [("location", JVal.str e.location),
    ("last_modified", JVal.str ⟨dtFormat e.last_modified⟩),
    ("size", JVal.num e.size),
    ("e_tag", optStrVal e.e_tag),
    ("version", optStrVal e.version)]

/-- Read a JSON scalar as a string. -/
def asStr : JVal → Option String
  | JVal.str s => some s
  | _ => none

/-- Read a JSON scalar as an unsigned integer. -/
def asNat : JVal → Option Nat
  | JVal.num n => some n
  | _ => none

/-- Serde deserialization of an `Option<String>` field: a missing field or
an explicit null is `None`. -/
def asOptStr : Option JVal → Option (Option String)
  | none => some none
  | some JVal.null => some none
  | some (JVal.str s) => some (some s)
  | some _ => none

/-- Serde deserialization of `ObjectExport` (derive Deserialize). -/
def decodeExport (j : Json) : Option ObjectExport :=
  match j with
  | Json.obj fs => do
    let loc ← lookupField fs "location" >>= asStr
    let lms ← lookupField fs "last_modified" >>= asStr
    let lm ← dtParseList lms.data
    let sz ← lookupField fs "size" >>= asNat
    let et ← asOptStr (lookupField fs "e_tag")
    let ver ← asOptStr (lookupField fs "version")
    some ⟨loc, lm, sz, et, ver⟩
  | _ => none

theorem decodeExport_encodeExport_reduce (loc : String) (lm : DT) (sz : Nat)
    (et ver : Option String) :
    decodeExport (encodeExport ⟨loc, lm, sz, et, ver⟩) =
      Option.bind (dtParseList (dtFormat lm)) (fun x => some ⟨loc, x, sz, et, ver⟩) := by
  cases et <;> cases ver <;> rfl

theorem decodeExport_encodeExport (e : ObjectExport) (h : DTValid e.last_modified) :
    decodeExport (encodeExport e) = some e := by
  obtain ⟨loc, lm, sz, et, ver⟩ := e
  rw [decodeExport_encodeExport_reduce, dtParse_dtFormat _ h]
  rfl

/-- The header line (enum `Preamble` in src/main.rs); the `root` field
holds the `url::Url` in its serialized (normalized) form. -/
inductive Preamble where
  | Obvious3_0 (root : String) : Preamble
  deriving DecidableEq

/-- Serde serialization of `Preamble` (internally tagged, tag field
`file_type`). -/
def encodePreamble : Preamble → Json
  | Preamble.Obvious3_0 root =>
    Json.obj [("file_type", JVal.str "Obvious3_0"), ("root", JVal.str root)]

/-- Serde deserialization of `Preamble`: the tag must be the recognized
variant name, anything else is rejected.  (The model accepts any string in
the `root` field; `url::Url` additionally rejects strings that do not
parse as URLs, which only makes the rejection cases of the claims
larger.) -/
def decodePreamble (j : Json) : Option Preamble :=
  match j with
  | Json.obj fs =>
    match lookupField fs "file_type" with
    | some (JVal.str tag) =>
      if tag = "Obvious3_0" then
        match lookupField fs "root" with
        | some (JVal.str root) => some (Preamble.Obvious3_0 root)
        | _ => none
      else none
    | _ => none
  | _ => none

theorem decodePreamble_encodePreamble (p : Preamble) :
    decodePreamble (encodePreamble p) = some p := by
  cases p
  rfl

/-- serde_json string escaping of one character: quote, backslash, the
short control escapes, `\u00XX` for other control characters, everything
else verbatim. -/
def escChar (c : Char) : List Char :=
  if c = '"' then ['\\', '"']
  else if c = '\\' then ['\\', '\\']
  else if c = Char.ofNat 8 then ['\\', 'b']
  else if c = Char.ofNat 9 then ['\\', 't']
  else if c = Char.ofNat 10 then ['\\', 'n']
  else if c = Char.ofNat 12 then ['\\', 'f']
  else if c = Char.ofNat 13 then ['\\', 'r']
  else if c.toNat < 32 then
    ['\\', 'u', '0', '0', hexDigitChar (c.toNat / 16 % 16), hexDigitChar (c.toNat % 16)]
  else [c]

/-- serde_json escaping of a whole string (body of a JSON string
literal). -/
def escString (s : String) : List Char := s.data.flatMap escChar

/-- Decimal rendering of an unsigned integer. -/
def natCharsAux : Nat → Nat → List Char → List Char
  | 0, _, acc => acc
  | fuel + 1, n, acc =>
    if n < 10 then digitChar n :: acc
    else natCharsAux fuel (n / 10) (digitChar (n % 10) :: acc)

/-- Decimal rendering of an unsigned integer. -/
def natChars (n : Nat) : List Char := natCharsAux (n + 1) n []

/-- serde_json rendering of a scalar (the `other` placeholder renders as
some scalar text; its exact spelling is irrelevant to the development,
since only encoded exports and preambles are ever rendered). -/
def renderVal : JVal → List Char
  | JVal.null => ['n', 'u', 'l', 'l']
  | JVal.str s => '"' :: (escString s ++ ['"'])
  | JVal.num n => natChars n
  | JVal.other => ['f', 'a', 'l', 's', 'e']

/-- serde_json rendering of one object field. -/
def renderField (f : String × JVal) : List Char :=
  '"' :: (escString f.1 ++ ('"' :: (':' :: renderVal f.2)))

/-- serde_json rendering of an object body (comma separated). -/
def renderFields : List (String × JVal) → List Char
  | [] => []
  | [f] => renderField f
  | f :: fs => renderField f ++ (',' :: renderFields fs)

/-- serde_json rendering of a whole JSON line (`serde_json::to_string`;
it cannot fail on these derived impls, so the model is a total
function). -/
def renderJson : Json → List Char
  | Json.obj fs => Char.ofNat 123 :: (renderFields fs ++ [Char.ofNat 125])
  | Json.lit v => renderVal v

/-- No character of the list is a raw newline. -/
def noNewline (cs : List Char) : Bool := cs.all (fun c => c != Char.ofNat 10)

theorem noNewline_iff (l : List Char) : noNewline l = true ↔ Char.ofNat 10 ∉ l := by
  unfold noNewline
  rw [List.all_eq_true]
  simp only [bne_iff_ne, ne_eq]
  constructor
  · intro h hmem
    exact h _ hmem rfl
  · intro h c hc heq
    exact h (heq ▸ hc)

theorem noNewline_append (a b : List Char) :
    noNewline (a ++ b) = (noNewline a && noNewline b) := by
  simp [noNewline]

theorem noNewline_cons (c : Char) (cs : List Char) :
    noNewline (c :: cs) = ((c != Char.ofNat 10) && noNewline cs) := by
  simp [noNewline]

theorem digitChar_ok (d : Nat) : (digitChar d != Char.ofNat 10) = true := by
  have h : d % 10 < 10 := Nat.mod_lt _ (by norm_num)
  unfold digitChar
  generalize d % 10 = m at h
  interval_cases m <;> decide

theorem hexDigitChar_ok (d : Nat) (h : d < 16) :
    (hexDigitChar d != Char.ofNat 10) = true := by
  unfold hexDigitChar
  interval_cases d <;> decide

theorem escChar_ok (c : Char) : noNewline (escChar c) = true := by
  unfold escChar
  split_ifs with h1 h2 h3 h4 h5 h6 h7 h8
  · decide
  · decide
  · decide
  · decide
  · decide
  · decide
  · decide
  · have ha := hexDigitChar_ok (c.toNat / 16 % 16) (Nat.mod_lt _ (by norm_num))
    have hb := hexDigitChar_ok (c.toNat % 16) (Nat.mod_lt _ (by norm_num))
    simp [noNewline_cons, ha, hb]
    decide
  · simp [noNewline_cons, noNewline]
    intro heq
    exact h5 (by rw [heq])

theorem flatMap_escChar_ok (l : List Char) :
    noNewline (l.flatMap escChar) = true := by
  induction l with
  | nil => decide
  | cons c cs ih =>
    rw [List.flatMap_cons, noNewline_append, escChar_ok, ih]
    rfl

theorem escString_ok (s : String) : noNewline (escString s) = true :=
  flatMap_escChar_ok s.data

theorem natCharsAux_ok (fuel : Nat) : ∀ (n : Nat) (acc : List Char),
    noNewline acc = true → noNewline (natCharsAux fuel n acc) = true := by
  induction fuel with
  | zero => intro n acc hacc; exact hacc
  | succ fuel ih =>
    intro n acc hacc
    unfold natCharsAux
    split_ifs
    · rw [noNewline_cons, digitChar_ok, hacc]
      rfl
    · apply ih
      rw [noNewline_cons, digitChar_ok, hacc]
      rfl

theorem natChars_ok (n : Nat) : noNewline (natChars n) = true :=
  natCharsAux_ok _ _ _ (by decide)

theorem renderVal_ok (v : JVal) : noNewline (renderVal v) = true := by
  cases v with
  | null => decide
  | str s =>
    unfold renderVal
    rw [noNewline_cons, noNewline_append, escString_ok]
    decide
  | num n => exact natChars_ok n
  | other => decide

theorem renderField_ok (f : String × JVal) : noNewline (renderField f) = true := by
  unfold renderField
  rw [noNewline_cons, noNewline_append, escString_ok, noNewline_cons,
    noNewline_cons, renderVal_ok]
  decide

theorem renderFields_ok (fs : List (String × JVal)) :
    noNewline (renderFields fs) = true := by
  induction fs with
  | nil => decide
  | cons f fs ih =>
    cases fs with
    | nil => exact renderField_ok f
    | cons g gs =>
      unfold renderFields
      rw [noNewline_append, renderField_ok, noNewline_cons, ih]
      decide

theorem renderJson_ok (j : Json) : noNewline (renderJson j) = true := by
  cases j with
  | obj fs =>
    unfold renderJson
    rw [noNewline_cons, noNewline_append, renderFields_ok]
    decide
  | lit v => exact renderVal_ok v

/-- A compiled `regex::Regex` (held abstract; matching is supplied by the
environment). -/
structure Regex where
  pat : String
  deriving DecidableEq

/-- The external collaborators of the pipeline, held as parameters of the
model: the `url` crate (`urlParse` = `Url::parse`, `fromFilePath` =
`Url::from_file_path`, URLs kept in serialized form), the filesystem
(`canonicalize` = `PathBuf::canonicalize`), the `regex` crate, the two
`Utc::now()` samples taken by the relative-time comparisons, and the
backend (`parse_url` + `ObjectStore::list`, `none` when `parse_url`
fails; a `none` list element is a listing error). -/
structure Env where
  urlParse : String → Option String
  canonicalize : String → Option String
  fromFilePath : String → Option String
  regexCompile : String → Option Regex
  regexIsMatch : Regex → String → Bool
  nowAfter : DT
  nowBefore : DT
  list : String → Option (List (Option ObjectMeta))

/-- The filter configuration (struct `Find` in src/find.rs). -/
structure FindCfg where
  root : Option String
  path_match : Option String
  basename_match : Option String
  invert : Bool
  min_size : Option Nat
  max_size : Option Nat
  after_absolute : Option DT
  before_absolute : Option DT
  after : Option Int
  before : Option Int
  deriving DecidableEq

/-- A configuration with no root, no criteria and `invert = false`. -/
def emptyCfg : FindCfg :=
  ⟨none, none, none, false, none, none, none, none, none, none⟩

/-- The error kinds of the spec (§7).  In the code these are anyhow
errors; `BrokenOutput` stands for the `SendError` returned by
`StdoutWriter::write` once the writer task has exited. -/
inductive FindError where
  | InvalidRoot : FindError
  | MissingOrMalformedHeader : FindError
  | InvalidPattern : FindError
  | SourceError : FindError
  | DecodeError : FindError
  | BrokenOutput : FindError
  deriving DecidableEq

/-- Hinnant's days-from-civil algorithm (chrono's internal calendar
arithmetic), used by the relative-time subtraction. -/
def daysFromCivil (y : Int) (m d : Nat) : Int :=
  let y2 : Int := if m ≤ 2 then y - 1 else y
  let era : Int := Int.fdiv y2 400
  let yoe : Int := y2 - era * 400
  let doy : Int := (Int.fdiv (153 * (Int.ofNat m + (if 2 < m then -3 else 9)) + 2) 5) +
    Int.ofNat d - 1
  let doe : Int := yoe * 365 + Int.fdiv yoe 4 - Int.fdiv yoe 100 + doy
  era * 146097 + doe - 719468

/-- Hinnant's civil-from-days algorithm. -/
def civilFromDays (z0 : Int) : Int × Nat × Nat :=
  let z : Int := z0 + 719468
  let era : Int := Int.fdiv z 146097
  let doe : Int := z - era * 146097
  let yoe : Int :=
    Int.fdiv (doe - Int.fdiv doe 1460 + Int.fdiv doe 36524 - Int.fdiv doe 146096) 365
  let y : Int := yoe + era * 400
  let doy : Int := doe - (365 * yoe + Int.fdiv yoe 4 - Int.fdiv yoe 100)
  let mp : Int := Int.fdiv (5 * doy + 2) 153
  let d : Int := doy - Int.fdiv (153 * mp + 2) 5 + 1
  let m : Int := mp + (if mp < 10 then 3 else -9)
  (y + (if m ≤ 2 then 1 else 0), m.toNat, d.toNat)

/-- `t - chrono::Duration::seconds(secs)`, on calendar components. -/
def dtSubSeconds (t : DT) (secs : Int) : DT :=
  let days : Int := daysFromCivil (Int.ofNat t.year) t.month t.day
  let tot : Int := days * 86400 + 3600 * t.hour + 60 * t.minute + t.second - secs
  let d2 : Int := Int.fdiv tot 86400
  let sod : Int := tot - d2 * 86400
  let c := civilFromDays d2
  ⟨c.1.toNat, c.2.1, c.2.2, (Int.fdiv sod 3600).toNat,
    (Int.fdiv (Int.fmod sod 3600) 60).toNat, (Int.fmod sod 60).toNat, t.nanos⟩

/-- `Find::base_url` (src/find.rs): no root gives `None`; otherwise try
`Url::parse`, and only if that fails treat the argument as a local path,
canonicalize it and convert with `Url::from_file_path`; either failure of
the local-path branch is the spec's `InvalidRoot`. -/
def baseUrl (env : Env) (root : Option String) : Except FindError (Option String) :=
  match root with
  | none => Except.ok none
  | some r =>
    match env.urlParse r with
    | some u => Except.ok (some u)
    | none =>
      match env.canonicalize r with
      | none => Except.error FindError.InvalidRoot
      | some p =>
        match env.fromFilePath p with
        | none => Except.error FindError.InvalidRoot
        | some u => Except.ok (some u)

/-- `Find::preamble` (src/find.rs): with a root, wrap the resolved URL in
a fresh header; without one, read the first stdin line and decode it as a
`Preamble` (any failure is the spec's `MissingOrMalformedHeader`). -/
def preambleStep (env : Env) (root : Option String) (stdin : List (Option Json)) :
    Except FindError (Preamble × List (Option Json)) :=
  match baseUrl env root with
  | Except.error e => Except.error e
  | Except.ok (some url) => Except.ok (Preamble.Obvious3_0 url, stdin)
  | Except.ok none =>
    match stdin with
    | [] => Except.error FindError.MissingOrMalformedHeader
    | l :: rest =>
      match l with
      | none => Except.error FindError.MissingOrMalformedHeader
      | some j =>
        match decodePreamble j with
        | none => Except.error FindError.MissingOrMalformedHeader
        | some p => Except.ok (p, rest)

/-- `self.path_match.as_ref().map(Regex::new).transpose()?`: compile an
optional pattern once, a malformed one being the spec's
`InvalidPattern`. -/
def compileOpt (env : Env) : Option String → Except FindError (Option Regex)
  | none => Except.ok none
  | some s =>
    match env.regexCompile s with
    | some r => Except.ok (some r)
    | none => Except.error FindError.InvalidPattern

/-- The `valid` accumulation of the `print_matches` closure in `Find::run`
(src/find.rs, lines 156-189), translated criterion by criterion. -/
def recordValid (env : Env) (cfg : FindCfg) (pR bR : Option Regex)
    (meta : ObjectMeta) : Bool :=
  let valid := true
  let valid := match pR with
    | some re => valid && env.regexIsMatch re meta.location
    | none => valid
  let valid := match bR with
    | some re => valid && env.regexIsMatch re ((pathFilename meta.location).getD "")
    | none => valid
  let valid := match cfg.min_size with
    | some m => valid && decide (m ≤ meta.size)
    | none => valid
  let valid := match cfg.max_size with
    | some m => valid && decide (meta.size ≤ m)
    | none => valid
  let valid := match cfg.after_absolute with
    | some a => valid && dtLe a meta.last_modified
    | none => valid
  let valid := match cfg.before_absolute with
    | some b => valid && dtLe meta.last_modified b
    | none => valid
  let valid := match cfg.after with
    | some a => valid && dtLe (dtSubSeconds env.nowAfter a) meta.last_modified
    | none => valid
  let valid := match cfg.before with
    | some b => valid && dtLe meta.last_modified (dtSubSeconds env.nowBefore b)
    | none => valid
  valid

/-- The forwarding decision `valid == !self.invert` of `print_matches`. -/
def forwards (env : Env) (cfg : FindCfg) (pR bR : Option Regex)
    (meta : ObjectMeta) : Bool :=
  recordValid env cfg pR bR meta == !cfg.invert

/-- The spec's reading of the predicate (§4.3): the plain conjunction of
all present criteria, absent criteria vacuously true. -/
def specMatches (env : Env) (cfg : FindCfg) (pR bR : Option Regex)
    (meta : ObjectMeta) : Bool :=
  [Option.elim pR true (fun re => env.regexIsMatch re meta.location),
    Option.elim bR true (fun re => env.regexIsMatch re ((pathFilename meta.location).getD "")),
    Option.elim cfg.min_size true (fun m => decide (m ≤ meta.size)),
    Option.elim cfg.max_size true (fun m => decide (meta.size ≤ m)),
    Option.elim cfg.after_absolute true (fun a => dtLe a meta.last_modified),
    Option.elim cfg.before_absolute true (fun b => dtLe meta.last_modified b),
    Option.elim cfg.after true (fun a => dtLe (dtSubSeconds env.nowAfter a) meta.last_modified),
    Option.elim cfg.before true (fun b => dtLe meta.last_modified (dtSubSeconds env.nowBefore b))].all id

/-- The state of the `StdoutWriter`: the complete lines written so far,
whether the mpsc channel is still open (the writer task still running),
and how many further record lines the consumer will accept before the
pipe breaks (`none`: forever). -/
structure SinkState where
  written : List Json
  channelOpen : Bool
  cap : Option Nat
  deriving DecidableEq

/-- `StdoutWriter::write` plus the writer task's reaction, under the
writer-keeps-up schedule: a send on a closed channel is the `SendError`
(`BrokenOutput`); otherwise the writer task consumes the record and
either writes the line or, if the consumer has closed the output, drops
it and exits (`break`) without reporting an error. -/
def sinkSend (st : SinkState) (e : ObjectExport) : Except FindError SinkState :=
  if st.channelOpen = false then Except.error FindError.BrokenOutput
  else
    match st.cap with
    | none => Except.ok ⟨st.written ++ [encodeExport e], true, none⟩
    | some 0 => Except.ok ⟨st.written, false, some 0⟩
    | some (n + 1) => Except.ok ⟨st.written ++ [encodeExport e], true, some n⟩

/-- The pipeline state while records flow: the sink, plus the list of
records evaluated so far (observation ghost state). -/
structure RunState where
  sink : SinkState
  evaluated : List ObjectMeta
  deriving DecidableEq

/-- One `print_matches` invocation: evaluate the predicate and, when it
forwards, send the wire form to the writer. -/
def stepRecord (env : Env) (cfg : FindCfg) (pR bR : Option Regex)
    (st : RunState) (meta : ObjectMeta) : RunState × Except FindError Unit :=
  let ev := st.evaluated ++ [meta]
  if forwards env cfg pR bR meta then
    match sinkSend st.sink (exportOfMeta meta) with
    | Except.error e => (⟨st.sink, ev⟩, Except.error e)
    | Except.ok s => (⟨s, ev⟩, Except.ok ())
  else (⟨st.sink, ev⟩, Except.ok ())

/-- `try_for_each_concurrent` over the record stream (sequential
schedule): stop at the first stream error or at the first failing
`print_matches`. -/
def runRecords (env : Env) (cfg : FindCfg) (pR bR : Option Regex) :
    List (Except FindError ObjectMeta) → RunState → RunState × Except FindError Unit
  | [], st => (st, Except.ok ())
  | it :: rest, st =>
    match it with
    | Except.error e => (st, Except.error e)
    | Except.ok meta =>
      match stepRecord env cfg pR bR st meta with
      | (st2, Except.ok _) => runRecords env cfg pR bR rest st2
      | (st2, Except.error e) => (st2, Except.error e)

/-- One stdin line of `Find::read_stdin`: decode the line as a wire
record and map it to native form; any failure is the spec's
`DecodeError`. -/
def decodeLine (l : Option Json) : Except FindError ObjectMeta :=
  match l with
  | none => Except.error FindError.DecodeError
  | some j =>
    match decodeExport j with
    | none => Except.error FindError.DecodeError
    | some e => Except.ok (metaOfExport e)

deriving instance DecidableEq for Except

/-- What one invocation did: the complete lines written to stdout, the
records evaluated, whether the backend was consulted, and the final
result (`main` exits non-zero exactly on `Except.error`). -/
structure RunOutcome where
  output : List Json
  evaluated : List ObjectMeta
  listedBackend : Bool
  result : Except FindError Unit
  deriving DecidableEq

/-- The process exit code: 0 on `Ok`, 1 on `Err` (anyhow's main). -/
def exitCode (o : RunOutcome) : Nat :=
  match o.result with
  | Except.ok _ => 0
  | Except.error _ => 1

/-- `Find::run` (src/find.rs): compile the two regexes, resolve the
preamble (reading the first stdin line in decode mode), start the writer
(which emits the preamble line), then drive either the backend listing or
the decoded stdin stream through `print_matches`. -/
def runFind (env : Env) (cfg : FindCfg) (stdin : List (Option Json))
    (cap : Option Nat) : RunOutcome :=
  match compileOpt env cfg.path_match with
  | Except.error e => ⟨[], [], false, Except.error e⟩
  | Except.ok pR =>
  match compileOpt env cfg.basename_match with
  | Except.error e => ⟨[], [], false, Except.error e⟩
  | Except.ok bR =>
  match preambleStep env cfg.root stdin with
  | Except.error e => ⟨[], [], false, Except.error e⟩
  | Except.ok (p, stdinRest) =>
  let sink0 : SinkState := ⟨[encodePreamble p], true, cap⟩
  match baseUrl env cfg.root with
  | Except.error e => ⟨sink0.written, [], false, Except.error e⟩
  | Except.ok (some url) =>
    match env.list url with
    | none => ⟨sink0.written, [], true, Except.error FindError.SourceError⟩
    | some items =>
      let items := items.map (fun it =>
        match it with
        | none => Except.error FindError.SourceError
        | some m => Except.ok m)
      let pr := runRecords env cfg pR bR items ⟨sink0, []⟩
      ⟨pr.1.sink.written, pr.1.evaluated, true, pr.2⟩
  | Except.ok none =>
    let pr := runRecords env cfg pR bR (stdinRest.map decodeLine) ⟨sink0, []⟩
    ⟨pr.1.sink.written, pr.1.evaluated, false, pr.2⟩

theorem stepRecord_unbounded (env : Env) (cfg : FindCfg) (pR bR : Option Regex)
    (w : List Json) (ev : List ObjectMeta) (m : ObjectMeta) :
    stepRecord env cfg pR bR ⟨⟨w, true, none⟩, ev⟩ m =
      (⟨⟨w ++ (if forwards env cfg pR bR m then [encodeExport (exportOfMeta m)] else []),
          true, none⟩, ev ++ [m]⟩, Except.ok ()) := by
  cases hf : forwards env cfg pR bR m <;> simp [stepRecord, sinkSend, hf]

theorem runRecords_unbounded (env : Env) (cfg : FindCfg) (pR bR : Option Regex)
    (metas : List ObjectMeta) : ∀ (w : List Json) (ev : List ObjectMeta),
    runRecords env cfg pR bR (metas.map Except.ok) ⟨⟨w, true, none⟩, ev⟩ =
      (⟨⟨w ++ (metas.filter (forwards env cfg pR bR)).map
            (fun m => encodeExport (exportOfMeta m)), true, none⟩,
        ev ++ metas⟩, Except.ok ()) := by
  induction metas with
  | nil => intro w ev; simp [runRecords]
  | cons m ms ih =>
    intro w ev
    rw [List.map_cons]
    simp only [runRecords, stepRecord_unbounded, ih]
    cases hf : forwards env cfg pR bR m <;> simp [hf, List.filter_cons]

theorem runRecords_stop (env : Env) (cfg : FindCfg) (pR bR : Option Regex)
    (metas : List ObjectMeta) :
    ∀ (e : FindError) (tail : List (Except FindError ObjectMeta)) (w : List Json)
      (ev : List ObjectMeta),
    runRecords env cfg pR bR (metas.map Except.ok ++ Except.error e :: tail)
        ⟨⟨w, true, none⟩, ev⟩ =
      (⟨⟨w ++ (metas.filter (forwards env cfg pR bR)).map
            (fun m => encodeExport (exportOfMeta m)), true, none⟩,
        ev ++ metas⟩, Except.error e) := by
  induction metas with
  | nil => intro e tail w ev; simp [runRecords]
  | cons m ms ih =>
    intro e tail w ev
    rw [List.map_cons, List.cons_append]
    simp only [runRecords, stepRecord_unbounded, ih]
    cases hf : forwards env cfg pR bR m <;> simp [hf, List.filter_cons]

theorem stepRecord_not_forward (env : Env) (cfg : FindCfg) (pR bR : Option Regex)
    (m : ObjectMeta) (hf : forwards env cfg pR bR m = false) (st : RunState) :
    stepRecord env cfg pR bR st m = (⟨st.sink, st.evaluated ++ [m]⟩, Except.ok ()) := by
  simp [stepRecord, hf]

theorem stepRecord_closed (env : Env) (cfg : FindCfg) (pR bR : Option Regex)
    (m : ObjectMeta) (hf : forwards env cfg pR bR m = true) (w : List Json)
    (c : Option Nat) (ev : List ObjectMeta) :
    stepRecord env cfg pR bR ⟨⟨w, false, c⟩, ev⟩ m =
      (⟨⟨w, false, c⟩, ev ++ [m]⟩, Except.error FindError.BrokenOutput) := by
  simp [stepRecord, hf, sinkSend]

theorem stepRecord_cap_zero (env : Env) (cfg : FindCfg) (pR bR : Option Regex)
    (m : ObjectMeta) (hf : forwards env cfg pR bR m = true) (w : List Json)
    (ev : List ObjectMeta) :
    stepRecord env cfg pR bR ⟨⟨w, true, some 0⟩, ev⟩ m =
      (⟨⟨w, false, some 0⟩, ev ++ [m]⟩, Except.ok ()) := by
  simp [stepRecord, hf, sinkSend]

theorem stepRecord_cap_succ (env : Env) (cfg : FindCfg) (pR bR : Option Regex)
    (m : ObjectMeta) (hf : forwards env cfg pR bR m = true) (k : Nat) (w : List Json)
    (ev : List ObjectMeta) :
    stepRecord env cfg pR bR ⟨⟨w, true, some (k + 1)⟩, ev⟩ m =
      (⟨⟨w ++ [encodeExport (exportOfMeta m)], true, some k⟩, ev ++ [m]⟩, Except.ok ()) := by
  simp [stepRecord, hf, sinkSend]

theorem runRecords_closed (env : Env) (cfg : FindCfg) (pR bR : Option Regex)
    (metas : List ObjectMeta) :
    ∀ (w : List Json) (c : Option Nat) (ev : List ObjectMeta),
    ((runRecords env cfg pR bR (metas.map Except.ok) ⟨⟨w, false, c⟩, ev⟩).1.sink.written = w)
    ∧ ((runRecords env cfg pR bR (metas.map Except.ok) ⟨⟨w, false, c⟩, ev⟩).2 =
        if (metas.filter (forwards env cfg pR bR)).isEmpty then Except.ok ()
        else Except.error FindError.BrokenOutput) := by
  induction metas with
  | nil => intro w c ev; simp [runRecords]
  | cons m ms ih =>
    intro w c ev
    rw [List.map_cons]
    cases hf : forwards env cfg pR bR m
    · rw [List.filter_cons_of_neg (by simp [hf])]
      simp only [runRecords, stepRecord_not_forward env cfg pR bR m hf]
      exact ih w c (ev ++ [m])
    · rw [List.filter_cons_of_pos (by simp [hf])]
      simp only [runRecords, stepRecord_closed env cfg pR bR m hf]
      simp

theorem runRecords_bounded (env : Env) (cfg : FindCfg) (pR bR : Option Regex)
    (metas : List ObjectMeta) :
    ∀ (k : Nat) (w : List Json) (ev : List ObjectMeta),
    ((runRecords env cfg pR bR (metas.map Except.ok) ⟨⟨w, true, some k⟩, ev⟩).1.sink.written
        = w ++ ((metas.filter (forwards env cfg pR bR)).take k).map
            (fun m => encodeExport (exportOfMeta m)))
    ∧ ((runRecords env cfg pR bR (metas.map Except.ok) ⟨⟨w, true, some k⟩, ev⟩).2 =
        if (metas.filter (forwards env cfg pR bR)).length ≤ k + 1 then Except.ok ()
        else Except.error FindError.BrokenOutput) := by
  induction metas with
  | nil => intro k w ev; simp [runRecords]
  | cons m ms ih =>
    intro k w ev
    rw [List.map_cons]
    cases hf : forwards env cfg pR bR m
    · rw [List.filter_cons_of_neg (by simp [hf])]
      simp only [runRecords, stepRecord_not_forward env cfg pR bR m hf]
      exact ih k w (ev ++ [m])
    · rw [List.filter_cons_of_pos (by simp [hf])]
      cases k with
      | zero =>
        simp only [runRecords, stepRecord_cap_zero env cfg pR bR m hf]
        have hc := runRecords_closed env cfg pR bR ms w (some 0) (ev ++ [m])
        refine ⟨by simpa using hc.1, ?_⟩
        rw [hc.2]
        rcases hms : ms.filter (forwards env cfg pR bR) with _ | ⟨x, xs⟩
        · simp
        · simp
      | succ k =>
        simp only [runRecords, stepRecord_cap_succ env cfg pR bR m hf]
        have hi := ih k (w ++ [encodeExport (exportOfMeta m)]) (ev ++ [m])
        constructor
        · rw [hi.1, List.take_succ_cons, List.map_cons, List.append_assoc]
          rfl
        · rw [hi.2, List.length_cons]
          by_cases hL : (ms.filter (forwards env cfg pR bR)).length ≤ k + 1
          · rw [if_pos hL, if_pos (by omega)]
          · rw [if_neg hL, if_neg (by omega)]

theorem runFind_decode (env : Env) (cfg : FindCfg) (pR bR : Option Regex)
    (hroot : cfg.root = none)
    (hp : compileOpt env cfg.path_match = Except.ok pR)
    (hb : compileOpt env cfg.basename_match = Except.ok bR)
    (hdr : Json) (p : Preamble) (hhdr : decodePreamble hdr = some p)
    (rest : List (Option Json)) (cap : Option Nat) :
    runFind env cfg (some hdr :: rest) cap =
      ⟨(runRecords env cfg pR bR (rest.map decodeLine)
          ⟨⟨[encodePreamble p], true, cap⟩, []⟩).1.sink.written,
       (runRecords env cfg pR bR (rest.map decodeLine)
          ⟨⟨[encodePreamble p], true, cap⟩, []⟩).1.evaluated,
       false,
       (runRecords env cfg pR bR (rest.map decodeLine)
          ⟨⟨[encodePreamble p], true, cap⟩, []⟩).2⟩ := by
  simp only [runFind, hp, hb, preambleStep, baseUrl, hroot, hhdr]

theorem beq_not_eq_xor (a b : Bool) : (a == !b) = Bool.xor a b := by
  cases a <;> cases b <;> rfl

theorem recordValid_eq_specMatches (env : Env) (cfg : FindCfg) (pR bR : Option Regex)
    (meta : ObjectMeta) :
    recordValid env cfg pR bR meta = specMatches env cfg pR bR meta := by
  obtain ⟨rt, pm, bm, inv, mins, maxs, aab, bab, aft, bef⟩ := cfg
  simp only [recordValid, specMatches]
  cases pR <;> cases bR <;> cases mins <;> cases maxs <;> cases aab <;> cases bab <;>
    cases aft <;> cases bef <;> simp [Bool.and_assoc]

/-- C2: For every record and every filter configuration, the predicate
evaluator computes the conjunction of all present criteria (path regex,
basename regex, size bounds, absolute and relative time bounds), and the
record is forwarded to the sink (its wire form appended to the writer's
output) if and only if that conjunction XOR the invert flag is true. -/
theorem find_forward_conjunction_xor_invert (env : Env) (cfg : FindCfg)
    (pR bR : Option Regex) (meta : ObjectMeta) (st : RunState)
    (hOpen : st.sink.channelOpen = true) (hCap : st.sink.cap = none) :
    forwards env cfg pR bR meta = Bool.xor (specMatches env cfg pR bR meta) cfg.invert
    ∧ (stepRecord env cfg pR bR st meta).1.sink.written =
        st.sink.written ++ (if Bool.xor (specMatches env cfg pR bR meta) cfg.invert
          then [encodeExport (exportOfMeta meta)] else []) := by
  have h1 : forwards env cfg pR bR meta =
      Bool.xor (specMatches env cfg pR bR meta) cfg.invert := by
    rw [forwards, recordValid_eq_specMatches]
    exact beq_not_eq_xor _ _
  refine ⟨h1, ?_⟩
  obtain ⟨⟨w, o, c⟩, ev⟩ := st
  simp only at hOpen hCap
  subst hOpen
  subst hCap
  simp only [stepRecord_unbounded, h1]

/-- Sample datetime used by concrete witnesses. -/
def dtW : DT := ⟨2020, 5, 17, 3, 4, 5, 6⟩

/-- A trivial concrete environment for the C2 witness. -/
def envC2 : Env :=
  ⟨fun _ => none, fun _ => none, fun _ => none, fun s => some ⟨s⟩,
    fun _ _ => true, dtW, dtW, fun _ => none⟩

/-- A concrete configuration for the C2 witness. -/
def cfgC2 : FindCfg :=
  ⟨none, none, none, true, some 100, some 1000, none, none, none, none⟩

/-- A concrete record for the C2 witness. -/
def metaC2 : ObjectMeta := ⟨"a/b", dtW, 500, none, none⟩

theorem find_forward_conjunction_xor_invert_witness :
    forwards envC2 cfgC2 none none metaC2 =
      Bool.xor (specMatches envC2 cfgC2 none none metaC2) cfgC2.invert
    ∧ (stepRecord envC2 cfgC2 none none ⟨⟨[], true, none⟩, []⟩ metaC2).1.sink.written =
        ([] : List Json) ++ (if Bool.xor (specMatches envC2 cfgC2 none none metaC2) cfgC2.invert
          then [encodeExport (exportOfMeta metaC2)] else []) :=
  find_forward_conjunction_xor_invert envC2 cfgC2 none none metaC2
    ⟨⟨[], true, none⟩, []⟩ rfl rfl

/-- C8: For every record, each absent criterion is vacuously true (with no
criteria the decision is `!invert`), and the size and time bounds are
inclusive: a record of size 500 fails `min_size = 1000`, passes
`max_size = 1000`, and each of these results is flipped by `invert`;
a record of size 1000 passes both bounds (inclusivity), and a record
passes `after_absolute`/`before_absolute` set to its own timestamp. -/
theorem filter_bounds_inclusive_vacuous (env : Env) (loc : String) (lm : DT)
    (et ver : Option String) :
    (∀ inv : Bool,
      forwards env { emptyCfg with invert := inv } none none ⟨loc, lm, 500, et, ver⟩ = !inv)
    ∧ forwards env { emptyCfg with min_size := some 1000 } none none
        ⟨loc, lm, 500, et, ver⟩ = false
    ∧ forwards env { emptyCfg with min_size := some 1000, invert := true } none none
        ⟨loc, lm, 500, et, ver⟩ = true
    ∧ forwards env { emptyCfg with max_size := some 1000 } none none
        ⟨loc, lm, 500, et, ver⟩ = true
    ∧ forwards env { emptyCfg with max_size := some 1000, invert := true } none none
        ⟨loc, lm, 500, et, ver⟩ = false
    ∧ forwards env { emptyCfg with min_size := some 1000 } none none
        ⟨loc, lm, 1000, et, ver⟩ = true
    ∧ forwards env { emptyCfg with max_size := some 1000 } none none
        ⟨loc, lm, 1000, et, ver⟩ = true
    ∧ forwards env { emptyCfg with after_absolute := some lm } none none
        ⟨loc, lm, 500, et, ver⟩ = true
    ∧ forwards env { emptyCfg with before_absolute := some lm } none none
        ⟨loc, lm, 500, et, ver⟩ = true := by
  refine ⟨?_, ?_, ?_, ?_, ?_, ?_, ?_, ?_, ?_⟩ <;>
    try intro inv
  all_goals simp [forwards, recordValid, emptyCfg, dtLe_refl]

/-- C10: For every `ObjectExport` record and every `Preamble` value, JSON
serialization is total (the model's renderer is a total function, since
serde_json cannot fail on these derived impls, making the sink's unwraps
unreachable), and the rendered text contains no raw newline, so the
writer always produces exactly one complete line per record. -/
theorem serialization_complete_lines (e : ObjectExport) (p : Preamble) :
    noNewline (renderJson (encodeExport e)) = true
    ∧ noNewline (renderJson (encodePreamble p)) = true
    ∧ Char.ofNat 10 ∉ renderJson (encodeExport e)
    ∧ Char.ofNat 10 ∉ renderJson (encodePreamble p) :=
  ⟨renderJson_ok _, renderJson_ok _, (noNewline_iff _).mp (renderJson_ok _),
    (noNewline_iff _).mp (renderJson_ok _)⟩

/-- C4: Encoding then decoding a `Preamble` yields an equal value, and in
decode mode an input stream whose first line is absent, not valid JSON,
or does not decode as a recognized `Preamble` (in particular one with an
unrecognized version tag) fails with `MissingOrMalformedHeader` before
any record is evaluated and before anything is written. -/
theorem header_roundtrip_and_reject (env : Env) (cfg : FindCfg)
    (stdin : List (Option Json)) (cap : Option Nat) (pR bR : Option Regex)
    (hroot : cfg.root = none)
    (hp : compileOpt env cfg.path_match = Except.ok pR)
    (hb : compileOpt env cfg.basename_match = Except.ok bR)
    (hbad : match stdin with
      | [] => True
      | l :: _ => l.bind decodePreamble = none) :
    (∀ p : Preamble, decodePreamble (encodePreamble p) = some p)
    ∧ runFind env cfg stdin cap =
        ⟨[], [], false, Except.error FindError.MissingOrMalformedHeader⟩ := by
  refine ⟨decodePreamble_encodePreamble, ?_⟩
  rcases stdin with _ | ⟨l, rest⟩
  · simp [runFind, hp, hb, preambleStep, baseUrl, hroot]
  · rcases l with _ | j
    · simp [runFind, hp, hb, preambleStep, baseUrl, hroot]
    · have hj : decodePreamble j = none := by simpa using hbad
      simp [runFind, hp, hb, preambleStep, baseUrl, hroot, hj]

/-- A trivial concrete environment for the C4 witness. -/
def envC4 : Env :=
  ⟨fun _ => none, fun _ => none, fun _ => none, fun s => some ⟨s⟩,
    fun _ _ => true, dtW, dtW, fun _ => none⟩

theorem header_roundtrip_and_reject_witness :
    decodePreamble (encodePreamble (Preamble.Obvious3_0 "file:///data")) =
      some (Preamble.Obvious3_0 "file:///data")
    ∧ runFind envC4 emptyCfg [] none =
        ⟨[], [], false, Except.error FindError.MissingOrMalformedHeader⟩ :=
  ⟨(header_roundtrip_and_reject envC4 emptyCfg [] none none none rfl rfl rfl
      trivial).1 _,
   (header_roundtrip_and_reject envC4 emptyCfg [] none none none rfl rfl rfl
      trivial).2⟩

/-- C7: With a root argument, resolution first tries `Url::parse`; only on
parse failure is the argument treated as a local path (canonicalize, then
convert to a URL); and resolution errors (with `InvalidRoot`) exactly
when the argument is neither a parseable URL nor a resolvable local path
(given that converting a canonicalized — hence absolute — path to a URL
succeeds). -/
theorem base_url_resolution (env : Env) (r : String)
    (habs : ∀ q, env.canonicalize r = some q → (env.fromFilePath q).isSome = true) :
    (∀ u, env.urlParse r = some u → baseUrl env (some r) = Except.ok (some u))
    ∧ (env.urlParse r = none → ∀ q u, env.canonicalize r = some q →
        env.fromFilePath q = some u → baseUrl env (some r) = Except.ok (some u))
    ∧ ((∃ e, baseUrl env (some r) = Except.error e) ↔
        (env.urlParse r = none ∧ env.canonicalize r = none))
    ∧ (env.urlParse r = none → env.canonicalize r = none →
        baseUrl env (some r) = Except.error FindError.InvalidRoot) := by
  refine ⟨?_, ?_, ?_, ?_⟩
  · intro u hu
    simp [baseUrl, hu]
  · intro hn q u hq hf
    simp [baseUrl, hn, hq, hf]
  · constructor
    · rintro ⟨e, he⟩
      rcases hu : env.urlParse r with _ | u
      · rcases hq : env.canonicalize r with _ | q
        · exact ⟨rfl, rfl⟩
        · rcases hf : env.fromFilePath q with _ | u2
          · have hx := habs q hq
            rw [hf] at hx
            simp at hx
          · simp [baseUrl, hu, hq, hf] at he
      · simp [baseUrl, hu] at he
    · rintro ⟨hu, hq⟩
      exact ⟨FindError.InvalidRoot, by simp [baseUrl, hu, hq]⟩
  · intro hu hq
    simp [baseUrl, hu, hq]

/-- A concrete environment for the C7 witness: nothing parses as a URL,
every path canonicalizes to `/a`, which converts to `file:///a`. -/
def envC7 : Env :=
  ⟨fun _ => none, fun _ => some "/a", fun _ => some "file:///a",
    fun s => some ⟨s⟩, fun _ _ => true, dtW, dtW, fun _ => none⟩

theorem base_url_resolution_witness :
    baseUrl envC7 (some "/a") = Except.ok (some "file:///a") :=
  (base_url_resolution envC7 "/a" (fun _ _ => rfl)).2.1 rfl "/a" "file:///a" rfl rfl

/-- C6: A malformed path or basename regex makes the invocation fail with
`InvalidPattern` before any record is evaluated, before anything is
written (not even the header), and before any backend I/O; the regexes
are compiled once, up front, in `Find::run`. -/
theorem invalid_pattern_aborts (env : Env) (cfg : FindCfg)
    (stdin : List (Option Json)) (cap : Option Nat)
    (hbad : (∃ s, cfg.path_match = some s ∧ env.regexCompile s = none)
      ∨ ((∃ pR, compileOpt env cfg.path_match = Except.ok pR)
          ∧ ∃ s, cfg.basename_match = some s ∧ env.regexCompile s = none)) :
    runFind env cfg stdin cap =
      ⟨[], [], false, Except.error FindError.InvalidPattern⟩ := by
  rcases hbad with ⟨s, hs, hc⟩ | ⟨⟨pR, hok⟩, s, hs, hc⟩
  · simp [runFind, compileOpt, hs, hc]
  · simp only [runFind, hok]
    simp [compileOpt, hs, hc]

/-- A concrete environment for the C6 witness: no pattern compiles. -/
def envC6 : Env :=
  ⟨fun _ => none, fun _ => none, fun _ => none, fun _ => none,
    fun _ _ => true, dtW, dtW, fun _ => none⟩

/-- A configuration with a malformed path pattern for the C6 witness. -/
def cfgC6 : FindCfg := { emptyCfg with path_match := some "(" }

theorem invalid_pattern_aborts_witness :
    runFind envC6 cfgC6 [] none =
      ⟨[], [], false, Except.error FindError.InvalidPattern⟩ :=
  invalid_pattern_aborts envC6 cfgC6 [] none (Or.inl ⟨"(", rfl, rfl⟩)

theorem decodeLine_encode (e : ObjectExport) (h : DTValid e.last_modified) :
    decodeLine (some (encodeExport e)) = Except.ok (metaOfExport e) := by
  simp [decodeLine, decodeExport_encodeExport e h]

theorem map_decodeLine_encode (goods : List ObjectExport)
    (hgood : ∀ e ∈ goods, DTValid e.last_modified) :
    (goods.map (fun e => some (encodeExport e))).map decodeLine =
      (goods.map metaOfExport).map Except.ok := by
  induction goods with
  | nil => rfl
  | cons e es ih =>
    simp only [List.map_cons]
    rw [decodeLine_encode e (hgood e (by simp)), ih (fun x hx => hgood x (by simp [hx]))]

/-- C5: In decode mode, a line that fails to decode as a wire record stops
the pipeline with `DecodeError` and a non-zero exit; the malformed line is
never skipped, exactly the records before it are evaluated, and no line
after it is processed as new work. -/
theorem decode_failfast (env : Env) (cfg : FindCfg) (pR bR : Option Regex)
    (hdr : Json) (p : Preamble) (goods : List ObjectExport) (bad : Option Json)
    (rest : List (Option Json))
    (hroot : cfg.root = none)
    (hp : compileOpt env cfg.path_match = Except.ok pR)
    (hb : compileOpt env cfg.basename_match = Except.ok bR)
    (hhdr : decodePreamble hdr = some p)
    (hgood : ∀ e ∈ goods, DTValid e.last_modified)
    (hbad : bad.bind decodeExport = none) :
    runFind env cfg
        (some hdr :: (goods.map (fun e => some (encodeExport e)) ++ bad :: rest)) none =
      ⟨encodePreamble p ::
          ((goods.map metaOfExport).filter (forwards env cfg pR bR)).map
            (fun m => encodeExport (exportOfMeta m)),
        goods.map metaOfExport, false, Except.error FindError.DecodeError⟩
    ∧ exitCode (runFind env cfg
        (some hdr :: (goods.map (fun e => some (encodeExport e)) ++ bad :: rest)) none) = 1 := by
  have h2 : decodeLine bad = Except.error FindError.DecodeError := by
    rcases bad with _ | j
    · rfl
    · have hj : decodeExport j = none := by simpa using hbad
      simp [decodeLine, hj]
  have heq := runFind_decode env cfg pR bR hroot hp hb hdr p hhdr
    (goods.map (fun e => some (encodeExport e)) ++ bad :: rest) none
  rw [List.map_append, List.map_cons, map_decodeLine_encode goods hgood, h2,
    runRecords_stop] at heq
  have hmain : runFind env cfg
      (some hdr :: (goods.map (fun e => some (encodeExport e)) ++ bad :: rest)) none =
      ⟨encodePreamble p ::
          ((goods.map metaOfExport).filter (forwards env cfg pR bR)).map
            (fun m => encodeExport (exportOfMeta m)),
        goods.map metaOfExport, false, Except.error FindError.DecodeError⟩ := by
    rw [heq]
    rfl
  exact ⟨hmain, by rw [hmain]; rfl⟩

/-- A trivial concrete environment for the C5 witness. -/
def envC5 : Env :=
  ⟨fun _ => none, fun _ => none, fun _ => none, fun s => some ⟨s⟩,
    fun _ _ => true, dtW, dtW, fun _ => none⟩

/-- A concrete well-formed wire record for the C5 witness. -/
def eC5 : ObjectExport := ⟨"a", dtW, 1, none, none⟩

theorem decode_failfast_witness :
    runFind envC5 emptyCfg
        (some (encodePreamble (Preamble.Obvious3_0 "file:///r")) ::
          ([eC5].map (fun e => some (encodeExport e)) ++
            some (Json.lit JVal.null) :: [])) none =
      ⟨encodePreamble (Preamble.Obvious3_0 "file:///r") ::
          (([eC5].map metaOfExport).filter (forwards envC5 emptyCfg none none)).map
            (fun m => encodeExport (exportOfMeta m)),
        [eC5].map metaOfExport, false, Except.error FindError.DecodeError⟩
    ∧ exitCode (runFind envC5 emptyCfg
        (some (encodePreamble (Preamble.Obvious3_0 "file:///r")) ::
          ([eC5].map (fun e => some (encodeExport e)) ++
            some (Json.lit JVal.null) :: [])) none) = 1 :=
  decode_failfast envC5 emptyCfg none none
    (encodePreamble (Preamble.Obvious3_0 "file:///r")) (Preamble.Obvious3_0 "file:///r")
    [eC5] (some (Json.lit JVal.null)) [] rfl rfl rfl
    (decodePreamble_encodePreamble _) (by decide) rfl

/-- C1 (amended): When the consumer closes the output after accepting `k`
record lines, the writer task stops writing (at most the first `k`
forwarded records appear) and swallows its own write failure, so the
`(k+1)`-th forwarded record is dropped silently and the process still
exits 0 when at most `k+1` records are forwarded in total; but any
further forwarded record fails to enqueue onto the closed channel and
that error propagates, so the process exits non-zero — exit code 0 is
NOT guaranteed for every input while records remain. -/
theorem find_broken_pipe_amended (env : Env) (cfg : FindCfg) (pR bR : Option Regex)
    (p : Preamble) (exports : List ObjectExport) (k : Nat)
    (hroot : cfg.root = none)
    (hp : compileOpt env cfg.path_match = Except.ok pR)
    (hb : compileOpt env cfg.basename_match = Except.ok bR)
    (hval : ∀ e ∈ exports, DTValid e.last_modified) :
    ((runFind env cfg
        (some (encodePreamble p) :: exports.map (fun e => some (encodeExport e)))
        (some k)).output
      = encodePreamble p ::
          (((exports.map metaOfExport).filter (forwards env cfg pR bR)).take k).map
            (fun m => encodeExport (exportOfMeta m)))
    ∧ ((runFind env cfg
        (some (encodePreamble p) :: exports.map (fun e => some (encodeExport e)))
        (some k)).result =
        if ((exports.map metaOfExport).filter (forwards env cfg pR bR)).length ≤ k + 1
        then Except.ok () else Except.error FindError.BrokenOutput) := by
  have heq := runFind_decode env cfg pR bR hroot hp hb (encodePreamble p) p
    (decodePreamble_encodePreamble p) (exports.map (fun e => some (encodeExport e)))
    (some k)
  rw [map_decodeLine_encode exports hval] at heq
  have hB := runRecords_bounded env cfg pR bR (exports.map metaOfExport) k
    [encodePreamble p] []
  refine ⟨?_, ?_⟩
  · rw [heq]
    exact hB.1
  · rw [heq]
    exact hB.2

/-- A trivial concrete environment for C1's concrete runs. -/
def envC1 : Env :=
  ⟨fun _ => none, fun _ => none, fun _ => none, fun s => some ⟨s⟩,
    fun _ _ => true, dtW, dtW, fun _ => none⟩

/-- First record of the C1 counterexample input. -/
def exC1a : ObjectExport := ⟨"a", dtW, 1, none, none⟩

/-- Second record of the C1 counterexample input. -/
def exC1b : ObjectExport := ⟨"b", dtW, 2, none, none⟩

/-- The C1 counterexample stdin: a header and two well-formed records. -/
def stdinC1 : List (Option Json) :=
  [some (encodePreamble (Preamble.Obvious3_0 "file:///r")),
   some (encodeExport exC1a), some (encodeExport exC1b)]

/-- C1 counterexample: with the output closed from the start of record
writing (capacity 0) and two records remaining that pass the (empty)
filter, the first send closes the channel silently, the second send fails
and the error propagates: the process exits 1, not 0, with no record line
written.  This refutes the claim that a consumer-closed output always
yields exit code 0. -/
theorem find_broken_pipe_counterexample :
    (runFind envC1 emptyCfg stdinC1 (some 0)).result =
      Except.error FindError.BrokenOutput
    ∧ exitCode (runFind envC1 emptyCfg stdinC1 (some 0)) = 1
    ∧ (runFind envC1 emptyCfg stdinC1 (some 0)).output =
        [encodePreamble (Preamble.Obvious3_0 "file:///r")] := by
  refine ⟨?_, ?_, ?_⟩ <;> decide

theorem find_broken_pipe_amended_witness :
    ((runFind envC1 emptyCfg
        (some (encodePreamble (Preamble.Obvious3_0 "file:///r")) ::
          [exC1a].map (fun e => some (encodeExport e))) (some 0)).output
      = encodePreamble (Preamble.Obvious3_0 "file:///r") ::
          ((([exC1a].map metaOfExport).filter (forwards envC1 emptyCfg none none)).take 0).map
            (fun m => encodeExport (exportOfMeta m)))
    ∧ ((runFind envC1 emptyCfg
        (some (encodePreamble (Preamble.Obvious3_0 "file:///r")) ::
          [exC1a].map (fun e => some (encodeExport e))) (some 0)).result =
        if (([exC1a].map metaOfExport).filter (forwards envC1 emptyCfg none none)).length ≤ 0 + 1
        then Except.ok () else Except.error FindError.BrokenOutput) :=
  find_broken_pipe_amended envC1 emptyCfg none none
    (Preamble.Obvious3_0 "file:///r") [exC1a] 0 rfl rfl rfl (by decide)

/-- C3 counterexample: the wire-to-native-to-wire direction is not the
identity: `ObjectStorePath::from` canonicalizes the location, so a wire
record whose location contains an empty segment (`a//b`) comes back with
location `a/b`.  This refutes losslessness of the mapping in both
directions. -/
theorem record_mapping_counterexample :
    exportOfMeta (metaOfExport ⟨"a//b", dtW, 1, none, none⟩) ≠
      (⟨"a//b", dtW, 1, none, none⟩ : ObjectExport) := by
  decide

/-- C3 (amended): wire-encoding then decoding a valid record yields an
equal value in every field; native-to-wire-to-native is the identity
whenever the native location is a fixed point of the path sanitiser (as
the raw form of a `Path` produced by `Path::parse` is); but
wire-to-native-to-wire equals canonicalization of the location by
`ObjectStorePath::from` (identity exactly when the location is already
canonical), so the mapping is not lossless in that direction in
general. -/
theorem record_roundtrip_amended :
    (∀ e : ObjectExport, DTValid e.last_modified →
      decodeExport (encodeExport e) = some e)
    ∧ (∀ m : ObjectMeta, pathFrom m.location = m.location →
        metaOfExport (exportOfMeta m) = m)
    ∧ (∀ e : ObjectExport, exportOfMeta (metaOfExport e) =
        ⟨pathFrom e.location, e.last_modified, e.size, e.e_tag, e.version⟩) := by
  refine ⟨decodeExport_encodeExport, ?_, ?_⟩
  · intro m hc
    obtain ⟨l, lm, s, e, v⟩ := m
    simp only [metaOfExport, exportOfMeta] at hc ⊢
    simp [hc]
  · intro e
    rfl

/-- A concrete wire record for the C3 witness. -/
def eC3 : ObjectExport := ⟨"data/file.parquet", dtW, 42, some "etag1", some "v1"⟩

/-- A concrete native record with canonical location for the C3 witness. -/
def mC3 : ObjectMeta := ⟨"data/file.parquet", dtW, 42, none, none⟩

theorem record_roundtrip_amended_witness :
    decodeExport (encodeExport eC3) = some eC3
    ∧ metaOfExport (exportOfMeta mC3) = mC3 :=
  ⟨record_roundtrip_amended.1 eC3 (by decide),
   record_roundtrip_amended.2.1 mC3 (by decide)⟩

theorem decodeLine_encode_canonical (m : ObjectMeta)
    (hc : pathFrom m.location = m.location) (hv : DTValid m.last_modified) :
    decodeLine (some (encodeExport (exportOfMeta m))) = Except.ok m := by
  rw [decodeLine_encode (exportOfMeta m) hv]
  obtain ⟨l, lm, s, e, v⟩ := m
  simp only [metaOfExport, exportOfMeta] at hc ⊢
  simp [hc]

theorem map_decodeLine_canonical (metas : List ObjectMeta)
    (h : ∀ m ∈ metas, pathFrom m.location = m.location ∧ DTValid m.last_modified) :
    (metas.map (fun m => some (encodeExport (exportOfMeta m)))).map decodeLine =
      metas.map Except.ok := by
  induction metas with
  | nil => rfl
  | cons m ms ih =>
    simp only [List.map_cons]
    rw [decodeLine_encode_canonical m (h m (by simp)).1 (h m (by simp)).2,
      ih (fun x hx => (h x (by simp [hx])))]

/-- C9 (amended): Piping the full output of one invocation (header plus
record lines — every output record line is the encoding of the export of
a native record) into a second invocation with no filter criteria and
`invert = false` reproduces exactly the same header line and the same
record lines, provided every record's location is a fixed point of the
path sanitiser (no `%`, no characters `ObjectStorePath::from` rewrites,
no empty or dot segments); without that proviso the second invocation
re-encodes locations and the record set can change. -/
theorem chaining_amended (env : Env) (p : Preamble) (metas : List ObjectMeta)
    (h : ∀ m ∈ metas, pathFrom m.location = m.location ∧ DTValid m.last_modified) :
    runFind env emptyCfg
        (some (encodePreamble p) ::
          metas.map (fun m => some (encodeExport (exportOfMeta m)))) none =
      ⟨encodePreamble p :: metas.map (fun m => encodeExport (exportOfMeta m)),
        metas, false, Except.ok ()⟩ := by
  have heq := runFind_decode env emptyCfg none none rfl rfl rfl (encodePreamble p) p
    (decodePreamble_encodePreamble p)
    (metas.map (fun m => some (encodeExport (exportOfMeta m)))) none
  rw [map_decodeLine_canonical metas h] at heq
  have hU := runRecords_unbounded env emptyCfg none none metas [encodePreamble p] []
  have hfil : metas.filter (forwards env emptyCfg none none) = metas :=
    List.filter_eq_self.mpr (fun m _ => rfl)
  rw [hfil] at hU
  rw [heq, hU]
  rfl

/-- A canonical-location record for the C9 witness. -/
def mC9good : ObjectMeta := ⟨"a/b", dtW, 500, none, none⟩

/-- The backend record of the C9 counterexample: the raw form of the
`Path` a local listing produces for a file literally named `a%b` (the
store percent-encodes it to `a%25b`). -/
def metaC9 : ObjectMeta := ⟨"a%25b", dtW, 500, none, none⟩

/-- The environment of the C9 runs: `mem:` parses as a URL and lists
exactly one record. -/
def envC9 : Env :=
  ⟨fun s => if s = "mem:" then some "mem:" else none, fun _ => none, fun _ => none,
    fun s => some ⟨s⟩, fun _ _ => true, dtW, dtW,
    fun u => if u = "mem:" then some [some metaC9] else none⟩

/-- The listing-mode configuration of the C9 counterexample's first
invocation. -/
def cfgC9 : FindCfg := { emptyCfg with root := some "mem:" }

theorem chaining_amended_witness :
    runFind envC9 emptyCfg
        (some (encodePreamble (Preamble.Obvious3_0 "mem:")) ::
          [mC9good].map (fun m => some (encodeExport (exportOfMeta m)))) none =
      ⟨encodePreamble (Preamble.Obvious3_0 "mem:") ::
          [mC9good].map (fun m => encodeExport (exportOfMeta m)),
        [mC9good], false, Except.ok ()⟩ :=
  chaining_amended envC9 (Preamble.Obvious3_0 "mem:") [mC9good] (by decide)

/-- C9 counterexample: a first (listing-mode) invocation emits the record
whose `Path` raw form is `a%25b` (a file named `a%b`); piping its full
output into a second invocation with no filters succeeds but emits a
record with location `a%2525b` — `ObjectStorePath::from` re-encodes the
`%` — so the second invocation's record set differs from the first's.
This refutes exact chaining idempotence. -/
theorem chaining_counterexample :
    (runFind envC9 cfgC9 [] none).result = Except.ok ()
    ∧ (runFind envC9 emptyCfg
        ((runFind envC9 cfgC9 [] none).output.map some) none).result = Except.ok ()
    ∧ encodeExport ⟨"a%2525b", dtW, 500, none, none⟩ ∈
        (runFind envC9 emptyCfg
          ((runFind envC9 cfgC9 [] none).output.map some) none).output
    ∧ encodeExport ⟨"a%2525b", dtW, 500, none, none⟩ ∉
        (runFind envC9 cfgC9 [] none).output
    ∧ (runFind envC9 emptyCfg
        ((runFind envC9 cfgC9 [] none).output.map some) none).output ≠
        (runFind envC9 cfgC9 [] none).output := by
  refine ⟨?_, ?_, ?_, ?_, ?_⟩ <;> decide
